import Mathlib

/-!
Verification of `tabular_value_iteration.py` (class `ValueIteration`).

The Python code is embedded shallowly: numpy arrays become functions
`ℕ → ℝ` (indexed by state/action), `np.sum` over an axis becomes
`Finset.sum` over `Finset.range`, `np.max` and `np.argmax` over a
1-d array of length `n` become left folds over `List.range n`,
matching numpy's first-occurrence semantics for `argmax`.
Floats are idealised as real numbers.
-/

open Filter

/-- Embedding of `np.max(v)` for a 1-d array `v` of length `A` given as
`fun i => f i`: left fold of `max` over the indices, seeded with `f 0`
(numpy requires a nonempty array; theorems assume `0 < A`). -/
def npMax (f : ℕ → ℝ) (A : ℕ) : ℝ :=
  (List.range A).foldl (fun m i => max m (f i)) (f 0)

/-- Embedding of `np.argmax(v)`: scan indices left to right, replacing the
current best index only on a strictly larger value, so the FIRST index
attaining the maximum is returned, as numpy documents. -/
noncomputable def npArgmax (f : ℕ → ℝ) (A : ℕ) : ℕ :=
  (List.range A).foldl (fun b i => if f b < f i then i else b) 0

theorem npMax_succ (f : ℕ → ℝ) (n : ℕ) :
    npMax f (n + 1) = max (npMax f n) (f n) := by
  simp [npMax, List.range_succ]

theorem npArgmax_succ (f : ℕ → ℝ) (n : ℕ) :
    npArgmax f (n + 1) =
      if f (npArgmax f n) < f n then n else npArgmax f n := by
  simp [npArgmax, List.range_succ]

theorem le_npMax (f : ℕ → ℝ) (A : ℕ) : ∀ j < A, f j ≤ npMax f A := by
  induction A with
  | zero => intro j hj; omega
  | succ n ih =>
    intro j hj
    rw [npMax_succ]
    rcases Nat.lt_succ_iff_lt_or_eq.mp hj with h | h
    · exact le_trans (ih j h) (le_max_left _ _)
    · subst h; exact le_max_right _ _

theorem npMax_eq_argmax (f : ℕ → ℝ) (A : ℕ) :
    npMax f A = f (npArgmax f A) := by
  induction A with
  | zero => simp [npMax, npArgmax]
  | succ n ih =>
    rw [npMax_succ, npArgmax_succ, ih]
    rcases lt_or_le (f (npArgmax f n)) (f n) with h | h
    · rw [if_pos h, max_eq_right h.le]
    · rw [if_neg (not_lt.mpr h), max_eq_left h]

theorem npArgmax_lt (f : ℕ → ℝ) (A : ℕ) (hA : 0 < A) : npArgmax f A < A := by
  induction A with
  | zero => omega
  | succ n ih =>
    rw [npArgmax_succ]
    by_cases h : f (npArgmax f n) < f n
    · rw [if_pos h]; omega
    · rw [if_neg h]
      rcases Nat.eq_zero_or_pos n with h0 | h0
      · subst h0; simp [npArgmax]
      · exact Nat.lt_succ_of_lt (ih h0)

theorem lt_npArgmax_imp (f : ℕ → ℝ) (A : ℕ) :
    ∀ j < npArgmax f A, f j < f (npArgmax f A) := by
  induction A with
  | zero => intro j hj; simp [npArgmax] at hj
  | succ n ih =>
    intro j hj
    rw [npArgmax_succ] at hj ⊢
    by_cases h : f (npArgmax f n) < f n
    · rw [if_pos h] at hj ⊢
      rcases lt_or_le j n with hjn | hjn
      · rcases lt_or_le j (npArgmax f n) with hja | hja
        · exact lt_trans (ih j hja) h
        · calc f j ≤ npMax f n := le_npMax f n j hjn
               _ = f (npArgmax f n) := npMax_eq_argmax f n
               _ < f n := h
      · omega
    · rw [if_neg h] at hj ⊢
      exact ih j hj

/-- First-occurrence property of `np.argmax`: any index of the array that
attains a value at least as large as the selected one lies at or after the
selected index. -/
theorem npArgmax_first (f : ℕ → ℝ) (A : ℕ) :
    ∀ j < A, f (npArgmax f A) ≤ f j → npArgmax f A ≤ j := by
  intro j _ hfj
  by_contra hlt
  exact absurd hfj (not_le.mpr (lt_npArgmax_imp f A j (not_le.mp hlt)))

theorem npMax_eq_sup (f : ℕ → ℝ) (A : ℕ)
    (h : (Finset.range A).Nonempty) :
    npMax f A = (Finset.range A).sup' h f := by
  refine le_antisymm ?_ (Finset.sup'_le h f
    (fun j hj => le_npMax f A j (Finset.mem_range.mp hj)))
  rw [npMax_eq_argmax]
  exact Finset.le_sup' f (Finset.mem_range.mpr
    (npArgmax_lt f A (Nat.pos_of_ne_zero (Finset.nonempty_range_iff.mp h))))

/-- Q-value as both branches of `get_next_values` / `get_next_policy`
compute it:
`v_s[a] = np.sum(self.transitions[s, a] * (self.rewards[s, a] + self.discount * self.value_fun.get_values()))`,
i.e. `Q(s,a) = Σ_{s'} T[s,a,s'] * (R[s,a,s'] + γ * V(s'))`.  During one
call `value_fun` is never updated (the result array `next_v` is local and
`value_fun.update` happens only afterwards in `train`), so every read of
`get_values()` returns the same `V`, which is therefore a plain
parameter here. -/
def qval (S : ℕ) (T R : ℕ → ℕ → ℕ → ℝ) (γ : ℝ) (V : ℕ → ℝ)
    (s a : ℕ) : ℝ :=
  ∑ s' ∈ Finset.range S, T s a s' * (R s a s' + γ * V s')

/-- Deterministic branch of `get_next_values`:
`next_v[s] = np.max(v_s)`. -/
def getNextValuesDet (S A : ℕ) (T R : ℕ → ℕ → ℕ → ℝ) (γ : ℝ)
    (V : ℕ → ℝ) (s : ℕ) : ℝ :=
  npMax (fun a => qval S T R γ V s a) A

/-- Max-entropy branch of `get_next_values`:
`v_s -= np.max(v_s)` then
`next_v[s] = np.log(np.sum(np.exp(v_s / self.temperature))) * self.temperature`.
Note the subtracted maximum is NOT added back. -/
noncomputable def getNextValuesMaxEnt (S A : ℕ) (T R : ℕ → ℕ → ℕ → ℝ)
    (γ τ : ℝ) (V : ℕ → ℝ) (s : ℕ) : ℝ :=
  Real.log (∑ a ∈ Finset.range A,
    Real.exp ((qval S T R γ V s a -
      npMax (fun a2 => qval S T R γ V s a2) A) / τ)) * τ

/-- Dispatch of `get_next_values` on `self.policy_type`; on any other
string the zero-initialised `next_v` array is returned unchanged. -/
noncomputable def getNextValues (S A : ℕ) (T R : ℕ → ℕ → ℕ → ℝ)
    (γ τ : ℝ) (pt : String) (V : ℕ → ℝ) : ℕ → ℝ :=
  fun s =>
    if pt = "deterministic" then getNextValuesDet S A T R γ V s
    else if pt = "max_ent" then getNextValuesMaxEnt S A T R γ τ V s
    else 0

/-- Deterministic branch of `get_next_policy`: `pi` starts as zeros,
`best_action = np.argmax(v_s)`, `pi[s, best_action] = 1.0`. -/
noncomputable def getNextPolicyDet (S A : ℕ) (T R : ℕ → ℕ → ℕ → ℝ) (γ : ℝ)
    (V : ℕ → ℝ) (s a : ℕ) : ℝ :=
  if a = npArgmax (fun a2 => qval S T R γ V s a2) A then 1 else 0

/-- Max-entropy branch of `get_next_policy`: `v_s -= np.max(v_s)`,
`softmax_probs = np.exp(v_s / self.temperature)`,
`softmax_probs /= np.sum(softmax_probs)`. -/
noncomputable def getNextPolicyMaxEnt (S A : ℕ) (T R : ℕ → ℕ → ℕ → ℝ)
    (γ τ : ℝ) (V : ℕ → ℝ) (s a : ℕ) : ℝ :=
  Real.exp ((qval S T R γ V s a -
      npMax (fun a2 => qval S T R γ V s a2) A) / τ) /
    ∑ a' ∈ Finset.range A,
      Real.exp ((qval S T R γ V s a' -
        npMax (fun a2 => qval S T R γ V s a2) A) / τ)

/-- Dispatch of `get_next_policy` on `self.policy_type`; any other string
leaves the zero-initialised `pi` array unchanged. -/
noncomputable def getNextPolicy (S A : ℕ) (T R : ℕ → ℕ → ℕ → ℝ)
    (γ τ : ℝ) (pt : String) (V : ℕ → ℝ) : ℕ → ℕ → ℝ :=
  fun s a =>
    if pt = "deterministic" then getNextPolicyDet S A T R γ V s a
    else if pt = "max_ent" then getNextPolicyMaxEnt S A T R γ τ V s a
    else 0

/-- Denominator of the sup-norm threshold in `_stop_condition`:
`2 * self.discount/(1 - self.discount)`. -/
noncomputable def supNormDenom (γ : ℝ) : ℝ := 2 * γ / (1 - γ)

/-- Embedding of `rmax = np.max(np.abs(self.env.rewards))`: the maximum of
`|R[s,a,s']|` over the whole (S, A, S) tensor, taken axis by axis. -/
noncomputable def rmaxOf (S A : ℕ) (R : ℕ → ℕ → ℕ → ℝ) : ℝ :=
  npMax (fun s => npMax (fun a => npMax (fun s2 => |R s a s2|) S) A) S

/-- Embedding of `_stop_condition(itr, next_v, v)`:
`cond1 = np.max(np.abs(next_v - v)) < self.precision/(2 * self.discount/(1 - self.discount))`,
`cond2 = self.discount ** itr * rmax/(1 - self.discount) < self.precision`,
returning `cond1 or cond2`. -/
noncomputable def stopCondition (S A : ℕ) (R : ℕ → ℕ → ℕ → ℝ)
    (γ precision : ℝ) (itr : ℕ) (nextv v : ℕ → ℝ) : Prop :=
  npMax (fun s => |nextv s - v s|) S < precision / supNormDenom γ ∨
  γ ^ itr * rmaxOf S A R / (1 - γ) < precision

/-- Configuration state built by `ValueIteration.__init__`: the fields the
numeric core reads. -/
structure ValueIterationCfg where
  numStates : ℕ
  numActions : ℕ
  transitions : ℕ → ℕ → ℕ → ℝ
  rewards : ℕ → ℕ → ℕ → ℝ
  discount : ℝ
  precision : ℝ
  policyType : String
  maxItr : ℕ
  temperature : ℝ

/-- Embedding of `ValueIteration.__init__`: the statement
`assert policy_type in ['deterministic', 'max_ent']` makes construction
fail (raise) for any other string, before any field that could be used by
a later iteration is set up; a failed assert is modelled as `none`. -/
def mkValueIteration (S A : ℕ) (T R : ℕ → ℕ → ℕ → ℝ)
    (γ precision : ℝ) (pt : String) (maxItr : ℕ) (τ : ℝ) :
    Option ValueIterationCfg :=
  if pt = "deterministic" ∨ pt = "max_ent" then
    some ⟨S, A, T, R, γ, precision, pt, maxItr, τ⟩
  else none

open Classical in
/-- Embedding of the `while` loop of `train`. Python locals: `next_v` is
the most recently computed value array (initially the broadcast scalar
`1e6`), `v` is the array returned by the initial `get_values()` call and
is never rebound inside the loop (`update` replaces the container's
storage, so the local `v` keeps the initial values), and the container's
current values (read by `get_next_values`) are the third argument.  Each
body execution performs exactly one `value_fun.update` and one `itr += 1`,
so the returned counter equals the number of updates.  The rollout /
rendering / logging block is external I/O with no effect on `V`, `itr` or
the loop condition and is not modelled. -/
noncomputable def trainLoop (S A : ℕ) (T R : ℕ → ℕ → ℕ → ℝ)
    (γ τ precision : ℝ) (pt : String) (maxItr : ℕ) (vinit : ℕ → ℝ)
    (nextv V : ℕ → ℝ) (itr : ℕ) : (ℕ → ℝ) × ℕ :=
  if h : ¬ stopCondition S A R γ precision itr nextv vinit ∧ itr < maxItr
  then
    trainLoop S A T R γ τ precision pt maxItr vinit
      (getNextValues S A T R γ τ pt V)
      (getNextValues S A T R γ τ pt V) (itr + 1)
  else (V, itr)
termination_by maxItr - itr
decreasing_by omega

/-- Embedding of `train` (its numeric core): run the loop from
`next_v = 1e6`, `v = value_fun.get_values()`, `itr = 0`, then after loop
exit recompute the policy from the final values and apply it
(`next_pi = self.get_next_policy(); self.policy.update(next_pi)`).
Returns (final values, final iteration counter, final policy). -/
noncomputable def train (S A : ℕ) (T R : ℕ → ℕ → ℕ → ℝ)
    (γ τ precision : ℝ) (pt : String) (maxItr : ℕ) (V0 : ℕ → ℝ) :
    (ℕ → ℝ) × ℕ × (ℕ → ℕ → ℝ) :=
  let r := trainLoop S A T R γ τ precision pt maxItr V0
    (fun _ => 1000000) V0 0
  (r.1, r.2, getNextPolicy S A T R γ τ pt r.1)

/-- The max-entropy backup as the spec states it (for comparison with the
code's `getNextValuesMaxEnt`):
`V'(s) = τ * log( Σ_a exp( (Q(s,a) - max_a Q(s,a)) / τ ) ) + max_a Q(s,a)`,
the stabilised log-sum-exp in which the subtracted maximum is added
back. -/
noncomputable def specSoftValues (S A : ℕ) (T R : ℕ → ℕ → ℕ → ℝ)
    (γ τ : ℝ) (V : ℕ → ℝ) (s : ℕ) : ℝ :=
  τ * Real.log (∑ a ∈ Finset.range A,
    Real.exp ((qval S T R γ V s a -
      npMax (fun a2 => qval S T R γ V s a2) A) / τ)) +
  npMax (fun a2 => qval S T R γ V s a2) A

/-- Concrete one-state, one-action MDP used as evaluation input: the single
transition is taken with probability 1 and pays reward 1. -/
def cT : ℕ → ℕ → ℕ → ℝ := fun _ _ _ => 1

/-- Concrete reward tensor: every transition pays 1. -/
def cR : ℕ → ℕ → ℕ → ℝ := fun _ _ _ => 1

/-- Concrete initial value estimate: identically 0. -/
def cV : ℕ → ℝ := fun _ => 0

theorem rmaxOf_eq_sup (S A : ℕ) (R : ℕ → ℕ → ℕ → ℝ)
    (hS : (Finset.range S).Nonempty) (hA : (Finset.range A).Nonempty) :
    rmaxOf S A R = (Finset.range S).sup' hS (fun s =>
      (Finset.range A).sup' hA (fun a =>
        (Finset.range S).sup' hS (fun s2 => |R s a s2|))) := by
  rw [rmaxOf, npMax_eq_sup _ S hS]
  refine Finset.sup'_congr hS rfl (fun s _ => ?_)
  rw [npMax_eq_sup _ A hA]
  refine Finset.sup'_congr hA rfl (fun a _ => ?_)
  rw [npMax_eq_sup _ S hS]

/-- C2: in deterministic mode `get_next_values` returns, for every state,
the maximum over the `A` actions of
`Q(s,a) = Σ_{s'} T[s,a,s'] * (R[s,a,s'] + γ * V(s'))` (`qval` is exactly
that formula): the result is an upper bound of the `Q(s,·)` row and is
attained by some action.  All `Q` values are computed from the single
value estimate `V` passed to the call (synchronous/Jacobi backup): the
embedding takes `V` once, which is faithful because the Python code only
updates `value_fun` after `get_next_values` has returned. -/
theorem getNextValues_det_is_max (S A : ℕ) (T R : ℕ → ℕ → ℕ → ℝ)
    (γ τ : ℝ) (V : ℕ → ℝ) (s : ℕ) (hA : 0 < A) :
    (∀ a < A, qval S T R γ V s a ≤
      getNextValues S A T R γ τ "deterministic" V s) ∧
    (∃ a < A, getNextValues S A T R γ τ "deterministic" V s =
      qval S T R γ V s a) := by
  have hd : getNextValues S A T R γ τ "deterministic" V s =
      npMax (fun a => qval S T R γ V s a) A := by
    simp [getNextValues, getNextValuesDet]
  constructor
  · intro a ha
    rw [hd]
    exact le_npMax _ A a ha
  · exact ⟨npArgmax (fun a => qval S T R γ V s a) A,
      npArgmax_lt _ A hA, by rw [hd]; exact npMax_eq_argmax _ A⟩

theorem getNextValues_det_is_max_witness :
    0 < 1 ∧
    ((∀ a < 1, qval 1 cT cR 0 cV 0 a ≤
        getNextValues 1 1 cT cR 0 1 "deterministic" cV 0) ∧
     (∃ a < 1, getNextValues 1 1 cT cR 0 1 "deterministic" cV 0 =
        qval 1 cT cR 0 cV 0 a)) :=
  ⟨by decide, getNextValues_det_is_max 1 1 cT cR 0 1 cV 0 (by decide)⟩

/-- C4: in deterministic mode the policy row of state `s` is one-hot at
`np.argmax` of the `Q(s,·)` row; the selected action is a valid index,
attains the maximal Q-value, and is the LOWEST index attaining it (numpy's
first-occurrence tie-break); being a pure function of its inputs, repeated
calls agree. -/
theorem getNextPolicy_det_one_hot (S A : ℕ) (T R : ℕ → ℕ → ℕ → ℝ)
    (γ τ : ℝ) (V : ℕ → ℝ) (s : ℕ) (hA : 0 < A) :
    getNextPolicy S A T R γ τ "deterministic" V s
      (npArgmax (fun a => qval S T R γ V s a) A) = 1 ∧
    (∀ a, a ≠ npArgmax (fun a2 => qval S T R γ V s a2) A →
      getNextPolicy S A T R γ τ "deterministic" V s a = 0) ∧
    npArgmax (fun a => qval S T R γ V s a) A < A ∧
    (∀ a < A, qval S T R γ V s a ≤
      qval S T R γ V s (npArgmax (fun a2 => qval S T R γ V s a2) A)) ∧
    (∀ a < A, qval S T R γ V s
        (npArgmax (fun a2 => qval S T R γ V s a2) A) ≤ qval S T R γ V s a →
      npArgmax (fun a2 => qval S T R γ V s a2) A ≤ a) := by
  refine ⟨?_, ?_, npArgmax_lt _ A hA, ?_, npArgmax_first _ A⟩
  · simp [getNextPolicy, getNextPolicyDet]
  · intro a ha
    simp [getNextPolicy, getNextPolicyDet, ha]
  · intro a ha
    calc qval S T R γ V s a ≤ npMax (fun a2 => qval S T R γ V s a2) A :=
          le_npMax _ A a ha
      _ = qval S T R γ V s (npArgmax (fun a2 => qval S T R γ V s a2) A) :=
          npMax_eq_argmax _ A

theorem getNextPolicy_det_one_hot_witness :
    0 < 1 ∧
    (getNextPolicy 1 1 cT cR 0 1 "deterministic" cV 0
      (npArgmax (fun a => qval 1 cT cR 0 cV 0 a) 1) = 1 ∧
    (∀ a, a ≠ npArgmax (fun a2 => qval 1 cT cR 0 cV 0 a2) 1 →
      getNextPolicy 1 1 cT cR 0 1 "deterministic" cV 0 a = 0) ∧
    npArgmax (fun a => qval 1 cT cR 0 cV 0 a) 1 < 1 ∧
    (∀ a < 1, qval 1 cT cR 0 cV 0 a ≤
      qval 1 cT cR 0 cV 0 (npArgmax (fun a2 => qval 1 cT cR 0 cV 0 a2) 1)) ∧
    (∀ a < 1, qval 1 cT cR 0 cV 0
        (npArgmax (fun a2 => qval 1 cT cR 0 cV 0 a2) 1) ≤
        qval 1 cT cR 0 cV 0 a →
      npArgmax (fun a2 => qval 1 cT cR 0 cV 0 a2) 1 ≤ a)) :=
  ⟨by decide, getNextPolicy_det_one_hot 1 1 cT cR 0 1 cV 0 (by decide)⟩

/-- C3: `_stop_condition(itr, next_v, v)` holds exactly when the sup-norm
of `next_v - v` over the `S` states is below
`precision / (2*γ/(1-γ))`, OR `γ^itr * Rmax/(1-γ) < precision` with
`Rmax` the maximum of `|R[s,a,s']|` over the whole tensor: a disjunction,
either condition alone suffices. -/
theorem stopCondition_iff (S A : ℕ) (R : ℕ → ℕ → ℕ → ℝ)
    (γ precision : ℝ) (itr : ℕ) (nextv v : ℕ → ℝ)
    (hS : (Finset.range S).Nonempty) (hA : (Finset.range A).Nonempty) :
    stopCondition S A R γ precision itr nextv v ↔
      ((Finset.range S).sup' hS (fun s => |nextv s - v s|) <
        precision / (2 * γ / (1 - γ)) ∨
       γ ^ itr * ((Finset.range S).sup' hS (fun s =>
         (Finset.range A).sup' hA (fun a =>
           (Finset.range S).sup' hS (fun s2 => |R s a s2|)))) / (1 - γ) <
         precision) := by
  rw [stopCondition, supNormDenom, rmaxOf_eq_sup S A R hS hA,
    npMax_eq_sup _ S hS]

theorem stopCondition_iff_witness :
    (Finset.range 1).Nonempty ∧ (Finset.range 1).Nonempty ∧
    (stopCondition 1 1 cR 0 1 0 cV cV ↔
      ((Finset.range 1).sup' (Finset.nonempty_range_iff.mpr one_ne_zero)
          (fun s => |cV s - cV s|) < 1 / (2 * 0 / (1 - 0)) ∨
       (0:ℝ) ^ 0 * ((Finset.range 1).sup'
          (Finset.nonempty_range_iff.mpr one_ne_zero) (fun s =>
         (Finset.range 1).sup' (Finset.nonempty_range_iff.mpr one_ne_zero)
           (fun a => (Finset.range 1).sup'
             (Finset.nonempty_range_iff.mpr one_ne_zero)
             (fun s2 => |cR s a s2|)))) / (1 - 0) < 1)) :=
  ⟨Finset.nonempty_range_iff.mpr one_ne_zero,
   Finset.nonempty_range_iff.mpr one_ne_zero,
   stopCondition_iff 1 1 cR 0 1 0 cV cV
     (Finset.nonempty_range_iff.mpr one_ne_zero)
     (Finset.nonempty_range_iff.mpr one_ne_zero)⟩

/-- C10: the sup-norm threshold of `_stop_condition` divides `precision`
by `2*γ/(1-γ)`; at `γ = 0` that divisor is zero (so the Python code would
raise a `ZeroDivisionError` there), while for every `0 < γ < 1` both the
divisor `2*γ/(1-γ)` and the denominator `1-γ` (also used by `cond2`) are
nonzero, so no division by zero occurs in either condition. -/
theorem stopCondition_divisors :
    supNormDenom 0 = 0 ∧
    ∀ γ : ℝ, 0 < γ → γ < 1 → supNormDenom γ ≠ 0 ∧ (1 - γ) ≠ 0 := by
  refine ⟨by simp [supNormDenom], fun γ h0 h1 => ⟨?_, ?_⟩⟩
  · rw [supNormDenom]
    apply div_ne_zero (by nlinarith) (by nlinarith)
  · nlinarith

theorem stopCondition_divisors_witness :
    supNormDenom 0 = 0 ∧
    (0 < (1:ℝ)/2 ∧ (1:ℝ)/2 < 1 ∧
      supNormDenom (1/2) ≠ 0 ∧ (1 - (1:ℝ)/2) ≠ 0) := by
  have h := stopCondition_divisors
  have h2 := h.2 (1/2) (by norm_num) (by norm_num)
  exact ⟨h.1, by norm_num, by norm_num, h2.1, h2.2⟩

/-- C8: `__init__` asserts `policy_type in ['deterministic', 'max_ent']`,
so construction succeeds (returns a configuration) exactly for those two
strings and fails for every other; any configuration it produces stores
the validated `policy_type`, which is therefore one of the two strings
every later dispatch handles. -/
theorem mkValueIteration_validates (S A : ℕ) (T R : ℕ → ℕ → ℕ → ℝ)
    (γ precision : ℝ) (maxItr : ℕ) (τ : ℝ) :
    (∀ pt : String,
      (mkValueIteration S A T R γ precision pt maxItr τ).isSome ↔
        (pt = "deterministic" ∨ pt = "max_ent")) ∧
    (∀ pt cfg, mkValueIteration S A T R γ precision pt maxItr τ = some cfg →
      (cfg.policyType = "deterministic" ∨ cfg.policyType = "max_ent")) := by
  constructor
  · intro pt
    rw [mkValueIteration]
    by_cases h : pt = "deterministic" ∨ pt = "max_ent"
    · rw [if_pos h]; simpa using h
    · rw [if_neg h]; simpa using h
  · intro pt cfg hcfg
    rw [mkValueIteration] at hcfg
    by_cases h : pt = "deterministic" ∨ pt = "max_ent"
    · rw [if_pos h] at hcfg
      cases hcfg
      exact h
    · rw [if_neg h] at hcfg
      cases hcfg

theorem mkValueIteration_validates_witness :
    ((mkValueIteration 1 1 cT cR 0 1 "deterministic" 50 1).isSome ↔
      ("deterministic" = "deterministic" ∨ "deterministic" = "max_ent")) ∧
    ¬ (mkValueIteration 1 1 cT cR 0 1 "bogus" 50 1).isSome :=
  ⟨(mkValueIteration_validates 1 1 cT cR 0 1 50 1).1 "deterministic",
   fun h => by
    rcases ((mkValueIteration_validates 1 1 cT cR 0 1 50 1).1 "bogus").mp h
      with h' | h' <;> simp at h'⟩

theorem expSum_pos (S A : ℕ) (T R : ℕ → ℕ → ℕ → ℝ) (γ τ : ℝ)
    (V : ℕ → ℝ) (s : ℕ) (hA : 0 < A) :
    0 < ∑ a ∈ Finset.range A,
      Real.exp ((qval S T R γ V s a -
        npMax (fun a2 => qval S T R γ V s a2) A) / τ) :=
  Finset.sum_pos (fun a _ => Real.exp_pos _)
    (Finset.nonempty_range_iff.mpr (by omega))

/-- C5: in max-entropy mode each policy row is the temperature-τ softmax of
the `Q(s,·)` row with max-subtraction stabilisation (that is literally how
`getNextPolicyMaxEnt` is computed from the source); consequently every
entry is nonnegative and the row sums to 1 in exact real arithmetic,
because the denominator is the strictly positive sum of the numerators. -/
theorem getNextPolicy_maxEnt_softmax (S A : ℕ) (T R : ℕ → ℕ → ℕ → ℝ)
    (γ τ : ℝ) (V : ℕ → ℝ) (s : ℕ) (hA : 0 < A) :
    (∀ a, getNextPolicy S A T R γ τ "max_ent" V s a =
      Real.exp ((qval S T R γ V s a -
        npMax (fun a2 => qval S T R γ V s a2) A) / τ) /
      ∑ a' ∈ Finset.range A, Real.exp ((qval S T R γ V s a' -
        npMax (fun a2 => qval S T R γ V s a2) A) / τ)) ∧
    (∀ a, 0 ≤ getNextPolicy S A T R γ τ "max_ent" V s a) ∧
    (∑ a ∈ Finset.range A, getNextPolicy S A T R γ τ "max_ent" V s a) = 1 := by
  have hme : ∀ a, getNextPolicy S A T R γ τ "max_ent" V s a =
      getNextPolicyMaxEnt S A T R γ τ V s a := by
    intro a; simp [getNextPolicy]
  have hpos := expSum_pos S A T R γ τ V s hA
  refine ⟨fun a => hme a, fun a => ?_, ?_⟩
  · rw [hme, getNextPolicyMaxEnt]
    exact div_nonneg (Real.exp_pos _).le hpos.le
  · rw [Finset.sum_congr rfl (fun a _ => hme a)]
    simp only [getNextPolicyMaxEnt]
    rw [← Finset.sum_div, div_self hpos.ne']

theorem getNextPolicy_maxEnt_softmax_witness :
    0 < 1 ∧
    ((∀ a, getNextPolicy 1 1 cT cR 0 1 "max_ent" cV 0 a =
      Real.exp ((qval 1 cT cR 0 cV 0 a -
        npMax (fun a2 => qval 1 cT cR 0 cV 0 a2) 1) / 1) /
      ∑ a' ∈ Finset.range 1, Real.exp ((qval 1 cT cR 0 cV 0 a' -
        npMax (fun a2 => qval 1 cT cR 0 cV 0 a2) 1) / 1)) ∧
    (∀ a, 0 ≤ getNextPolicy 1 1 cT cR 0 1 "max_ent" cV 0 a) ∧
    (∑ a ∈ Finset.range 1,
      getNextPolicy 1 1 cT cR 0 1 "max_ent" cV 0 a) = 1) :=
  ⟨by decide, getNextPolicy_maxEnt_softmax 1 1 cT cR 0 1 cV 0 (by decide)⟩

theorem maxEnt_value_bounds_aux (S A : ℕ) (T R : ℕ → ℕ → ℕ → ℝ)
    (γ τ : ℝ) (V : ℕ → ℝ) (s : ℕ) (hA : 0 < A) (hτ : 0 < τ) :
    0 ≤ getNextValuesMaxEnt S A T R γ τ V s ∧
    getNextValuesMaxEnt S A T R γ τ V s ≤ τ * Real.log A := by
  have hq : ∀ a < A, qval S T R γ V s a ≤
      npMax (fun a2 => qval S T R γ V s a2) A :=
    fun a ha => le_npMax _ A a ha
  have hsum_ge : (1:ℝ) ≤ ∑ a ∈ Finset.range A,
      Real.exp ((qval S T R γ V s a -
        npMax (fun a2 => qval S T R γ V s a2) A) / τ) := by
    have ha0 : npArgmax (fun a2 => qval S T R γ V s a2) A < A :=
      npArgmax_lt _ A hA
    have h1 : Real.exp ((qval S T R γ V s
        (npArgmax (fun a2 => qval S T R γ V s a2) A) -
        npMax (fun a2 => qval S T R γ V s a2) A) / τ) = 1 := by
      rw [npMax_eq_argmax _ A, sub_self, zero_div, Real.exp_zero]
    have h2 := Finset.single_le_sum
      (f := fun a => Real.exp ((qval S T R γ V s a -
        npMax (fun a2 => qval S T R γ V s a2) A) / τ))
      (fun a _ => (Real.exp_pos _).le) (Finset.mem_range.mpr ha0)
    simpa only [h1] using h2
  have hsum_le : (∑ a ∈ Finset.range A,
      Real.exp ((qval S T R γ V s a -
        npMax (fun a2 => qval S T R γ V s a2) A) / τ)) ≤ (A : ℝ) := by
    have h3 : ∀ a ∈ Finset.range A,
        Real.exp ((qval S T R γ V s a -
          npMax (fun a2 => qval S T R γ V s a2) A) / τ) ≤ 1 := by
      intro a ha
      rw [Real.exp_le_one_iff]
      exact div_nonpos_iff.mpr (Or.inr
        ⟨sub_nonpos.mpr (hq a (Finset.mem_range.mp ha)), hτ.le⟩)
    have h4 := Finset.sum_le_sum h3
    simpa using h4
  have hSpos : (0:ℝ) < ∑ a ∈ Finset.range A,
      Real.exp ((qval S T R γ V s a -
        npMax (fun a2 => qval S T R γ V s a2) A) / τ) := by linarith
  have hlog0 : 0 ≤ Real.log (∑ a ∈ Finset.range A,
      Real.exp ((qval S T R γ V s a -
        npMax (fun a2 => qval S T R γ V s a2) A) / τ)) :=
    Real.log_nonneg hsum_ge
  have hlogA : Real.log (∑ a ∈ Finset.range A,
      Real.exp ((qval S T R γ V s a -
        npMax (fun a2 => qval S T R γ V s a2) A) / τ)) ≤
      Real.log (A : ℝ) :=
    (Real.log_le_log_iff hSpos (by exact_mod_cast hA)).mpr hsum_le
  constructor
  · rw [getNextValuesMaxEnt]
    exact mul_nonneg hlog0 hτ.le
  · rw [getNextValuesMaxEnt]
    calc Real.log (∑ a ∈ Finset.range A,
        Real.exp ((qval S T R γ V s a -
          npMax (fun a2 => qval S T R γ V s a2) A) / τ)) * τ ≤
        Real.log (A : ℝ) * τ := mul_le_mul_of_nonneg_right hlogA hτ.le
      _ = τ * Real.log (A : ℝ) := mul_comm _ _

/-- C6: in max-entropy mode every value returned by `get_next_values` lies
in `[0, τ * ln A]`, for every transition tensor, reward tensor, discount
and current value estimate (because the code takes the log-sum-exp of the
max-subtracted, hence nonpositive, Q-row and never adds the maximum back);
in particular with a single action the result is identically 0. -/
theorem getNextValues_maxEnt_bounds (S A : ℕ) (T R : ℕ → ℕ → ℕ → ℝ)
    (γ τ : ℝ) (V : ℕ → ℝ) (s : ℕ) (hA : 0 < A) (hτ : 0 < τ) :
    0 ≤ getNextValues S A T R γ τ "max_ent" V s ∧
    getNextValues S A T R γ τ "max_ent" V s ≤ τ * Real.log A ∧
    (A = 1 → getNextValues S A T R γ τ "max_ent" V s = 0) := by
  have hme : getNextValues S A T R γ τ "max_ent" V s =
      getNextValuesMaxEnt S A T R γ τ V s := by
    simp [getNextValues]
  have hb := maxEnt_value_bounds_aux S A T R γ τ V s hA hτ
  refine ⟨by rw [hme]; exact hb.1, by rw [hme]; exact hb.2, fun h1 => ?_⟩
  subst h1
  have h2 := hb.2
  rw [Nat.cast_one, Real.log_one, mul_zero] at h2
  rw [hme]
  exact le_antisymm h2 hb.1

theorem getNextValues_maxEnt_bounds_witness :
    0 < 1 ∧ (0:ℝ) < 1 ∧
    (0 ≤ getNextValues 1 1 cT cR 0 1 "max_ent" cV 0 ∧
     getNextValues 1 1 cT cR 0 1 "max_ent" cV 0 ≤ 1 * Real.log 1 ∧
     (1 = 1 → getNextValues 1 1 cT cR 0 1 "max_ent" cV 0 = 0)) := by
  refine ⟨by decide, by norm_num, ?_⟩
  have h := getNextValues_maxEnt_bounds 1 1 cT cR 0 1 cV 0 (by decide)
    (by norm_num)
  simpa using h

theorem npMax_one (f : ℕ → ℝ) : npMax f 1 = f 0 := by
  rw [npMax, List.range_succ, List.range_zero]
  simp

theorem cQval_eq_one : qval 1 cT cR 0 cV 0 0 = 1 := by
  simp [qval, cT, cR, cV]

theorem cQmax_eq_one : npMax (fun a2 => qval 1 cT cR 0 cV 0 a2) 1 = 1 := by
  rw [npMax_one]
  exact cQval_eq_one

/-- C1: the max-entropy branch of `get_next_values` subtracts the
per-state maximum of Q but does not add it back, so it returns
`τ·log Σ_a exp((Q−maxQ)/τ)` instead of the claimed
`τ·log Σ_a exp((Q−maxQ)/τ) + maxQ`.  At the one-state one-action MDP with
`T ≡ 1`, `R ≡ 1`, `γ = 0`, `τ = 1`, `V ≡ 0` we have `Q(0,0) = 1`, the
claimed (spec) formula gives 1, but the code returns 0. -/
theorem getNextValues_maxEnt_missing_add_back :
    getNextValues 1 1 cT cR 0 1 "max_ent" cV 0 = 0 ∧
    specSoftValues 1 1 cT cR 0 1 cV 0 = 1 ∧
    getNextValues 1 1 cT cR 0 1 "max_ent" cV 0 ≠
      specSoftValues 1 1 cT cR 0 1 cV 0 := by
  have h0 : getNextValues 1 1 cT cR 0 1 "max_ent" cV 0 = 0 := by
    rw [show getNextValues 1 1 cT cR 0 1 "max_ent" cV 0 =
      getNextValuesMaxEnt 1 1 cT cR 0 1 cV 0 from by simp [getNextValues]]
    rw [getNextValuesMaxEnt, Finset.sum_range_one, cQmax_eq_one,
      cQval_eq_one]
    norm_num
  have h1 : specSoftValues 1 1 cT cR 0 1 cV 0 = 1 := by
    rw [specSoftValues, Finset.sum_range_one, cQmax_eq_one, cQval_eq_one]
    norm_num
  exact ⟨h0, h1, by rw [h0, h1]; norm_num⟩

/-- C7 fails on the code: on the one-state one-action MDP with `T ≡ 1`,
`R ≡ 1`, `γ = 0`, `V ≡ 0`, the max-entropy output of `get_next_values` is
identically 0 for every temperature (because the subtracted maximum is
never added back), while the deterministic-mode output is `max_a Q = 1`;
so as τ → 0⁺ the former does not converge to the latter. -/
theorem maxEnt_values_not_tendsto_det :
    ¬ Tendsto (fun τ : ℝ => getNextValues 1 1 cT cR 0 τ "max_ent" cV 0)
      (nhdsWithin 0 (Set.Ioi 0))
      (nhds (getNextValues 1 1 cT cR 0 1 "deterministic" cV 0)) := by
  have hdet : getNextValues 1 1 cT cR 0 1 "deterministic" cV 0 = 1 := by
    rw [show getNextValues 1 1 cT cR 0 1 "deterministic" cV 0 =
      getNextValuesDet 1 1 cT cR 0 cV 0 from by simp [getNextValues]]
    rw [getNextValuesDet, npMax_one]
    exact cQval_eq_one
  have hfun : (fun τ : ℝ => getNextValues 1 1 cT cR 0 τ "max_ent" cV 0) =
      fun _ : ℝ => (0:ℝ) := by
    funext τ
    rw [show getNextValues 1 1 cT cR 0 τ "max_ent" cV 0 =
      getNextValuesMaxEnt 1 1 cT cR 0 τ cV 0 from by simp [getNextValues]]
    rw [getNextValuesMaxEnt, Finset.sum_range_one, cQmax_eq_one,
      cQval_eq_one]
    simp
  intro h
  rw [hdet, hfun] at h
  have h0 : Tendsto (fun _ : ℝ => (0:ℝ)) (nhdsWithin 0 (Set.Ioi 0))
      (nhds 0) := tendsto_const_nhds
  have h01 : (0:ℝ) = 1 := tendsto_nhds_unique h0 h
  norm_num at h01

/-- C7 as amended: because the per-state maximum is never added back, as
τ → 0⁺ the max-entropy output of `get_next_values` converges state-wise to
0 = max_a Q − max_a Q (the deterministic output SHIFTED by the subtracted
maximum), not to max_a Q itself; the second half of the claim is intact:
as τ → ∞ the max-entropy output of `get_next_policy` converges entry-wise
to the uniform distribution 1/A over the actions. -/
theorem maxEnt_temperature_limits (S A : ℕ) (T R : ℕ → ℕ → ℕ → ℝ)
    (γ : ℝ) (V : ℕ → ℝ) (s a : ℕ) (hA : 0 < A) (_ha : a < A) :
    Tendsto (fun τ : ℝ => getNextValues S A T R γ τ "max_ent" V s)
      (nhdsWithin 0 (Set.Ioi 0)) (nhds 0) ∧
    Tendsto (fun τ : ℝ => getNextPolicy S A T R γ τ "max_ent" V s a)
      atTop (nhds (1 / (A : ℝ))) := by
  have hmev : (fun τ : ℝ => getNextValues S A T R γ τ "max_ent" V s) =
      fun τ : ℝ => getNextValuesMaxEnt S A T R γ τ V s := by
    funext τ; simp [getNextValues]
  have hmep : (fun τ : ℝ => getNextPolicy S A T R γ τ "max_ent" V s a) =
      fun τ : ℝ => getNextPolicyMaxEnt S A T R γ τ V s a := by
    funext τ; simp [getNextPolicy]
  constructor
  · rw [hmev]
    have hup : Tendsto (fun τ : ℝ => τ * Real.log (A : ℝ))
        (nhdsWithin 0 (Set.Ioi 0)) (nhds 0) := by
      apply tendsto_nhdsWithin_of_tendsto_nhds
      have hc : Tendsto (fun τ : ℝ => τ * Real.log (A : ℝ)) (nhds 0)
          (nhds (0 * Real.log (A : ℝ))) :=
        (continuous_id.mul continuous_const).tendsto 0
      simpa using hc
    refine tendsto_of_tendsto_of_tendsto_of_le_of_le'
      (tendsto_const_nhds (α := ℝ) (f := nhdsWithin 0 (Set.Ioi 0)))
      hup ?_ ?_
    · exact eventually_mem_nhdsWithin.mono (fun τ hτ =>
        (maxEnt_value_bounds_aux S A T R γ τ V s hA hτ).1)
    · exact eventually_mem_nhdsWithin.mono (fun τ hτ =>
        (maxEnt_value_bounds_aux S A T R γ τ V s hA hτ).2)
  · rw [hmep]
    have hnum : ∀ b : ℕ, Tendsto (fun τ : ℝ =>
        Real.exp ((qval S T R γ V s b -
          npMax (fun a2 => qval S T R γ V s a2) A) / τ))
        atTop (nhds 1) := by
      intro b
      have h1 : Tendsto (fun τ : ℝ =>
          (qval S T R γ V s b -
            npMax (fun a2 => qval S T R γ V s a2) A) / τ)
          atTop (nhds 0) :=
        Tendsto.div_atTop tendsto_const_nhds tendsto_id
      have h2 := (Real.continuous_exp.tendsto 0).comp h1
      simpa using h2
    have hden : Tendsto (fun τ : ℝ => ∑ a' ∈ Finset.range A,
        Real.exp ((qval S T R γ V s a' -
          npMax (fun a2 => qval S T R γ V s a2) A) / τ))
        atTop (nhds (A : ℝ)) := by
      have h3 := tendsto_finset_sum (Finset.range A)
        (fun a' _ => hnum a')
      simpa using h3
    have hA0 : ((A : ℝ)) ≠ 0 := Nat.cast_ne_zero.mpr (by omega)
    have h4 := (hnum a).div hden hA0
    simpa [getNextPolicyMaxEnt] using h4

theorem maxEnt_temperature_limits_witness :
    0 < 1 ∧ 0 < 1 ∧
    (Tendsto (fun τ : ℝ => getNextValues 1 1 cT cR 0 τ "max_ent" cV 0)
      (nhdsWithin 0 (Set.Ioi 0)) (nhds 0) ∧
    Tendsto (fun τ : ℝ => getNextPolicy 1 1 cT cR 0 τ "max_ent" cV 0 0)
      atTop (nhds (1 / ((1 : ℕ) : ℝ)))) :=
  ⟨by decide, by decide,
    maxEnt_temperature_limits 1 1 cT cR 0 cV 0 0 (by decide) (by decide)⟩

theorem trainLoop_spec (S A : ℕ) (T R : ℕ → ℕ → ℕ → ℝ)
    (γ τ precision : ℝ) (pt : String) (maxItr : ℕ) (vinit : ℕ → ℝ) :
    ∀ n itr nextv V, maxItr - itr ≤ n →
      itr ≤ (trainLoop S A T R γ τ precision pt maxItr vinit
        nextv V itr).2 ∧
      ((trainLoop S A T R γ τ precision pt maxItr vinit
        nextv V itr).2 = itr →
        (trainLoop S A T R γ τ precision pt maxItr vinit
          nextv V itr).1 = V) ∧
      (itr ≤ maxItr → (trainLoop S A T R γ τ precision pt maxItr vinit
        nextv V itr).2 ≤ maxItr) ∧
      ((trainLoop S A T R γ τ precision pt maxItr vinit
        nextv V itr).2 < maxItr →
        stopCondition S A R γ precision
          (trainLoop S A T R γ τ precision pt maxItr vinit nextv V itr).2
          (if (trainLoop S A T R γ τ precision pt maxItr vinit
            nextv V itr).2 = itr then nextv
           else (trainLoop S A T R γ τ precision pt maxItr vinit
            nextv V itr).1) vinit) := by
  intro n
  induction n with
  | zero =>
    intro itr nextv V hn
    have hnot : ¬ (¬ stopCondition S A R γ precision itr nextv vinit ∧
        itr < maxItr) := fun hcon => absurd hcon.2 (by omega)
    have heq : trainLoop S A T R γ τ precision pt maxItr vinit
        nextv V itr = (V, itr) := by
      rw [trainLoop]
      exact dif_neg hnot
    rw [heq]
    exact ⟨le_refl _, fun _ => rfl, fun h => h, fun h => absurd h (by omega)⟩
  | succ n ih =>
    intro itr nextv V hn
    by_cases hc : ¬ stopCondition S A R γ precision itr nextv vinit ∧
        itr < maxItr
    · have heq : trainLoop S A T R γ τ precision pt maxItr vinit
          nextv V itr =
          trainLoop S A T R γ τ precision pt maxItr vinit
            (getNextValues S A T R γ τ pt V)
            (getNextValues S A T R γ τ pt V) (itr + 1) := by
        rw [trainLoop]
        exact dif_pos hc
      have hrec := ih (itr + 1) (getNextValues S A T R γ τ pt V)
        (getNextValues S A T R γ τ pt V) (by omega)
      rw [heq]
      refine ⟨?_, ?_, ?_, ?_⟩
      · have h1 := hrec.1
        omega
      · intro h
        have h1 := hrec.1
        omega
      · intro _
        exact hrec.2.2.1 (by omega)
      · intro h
        have hs := hrec.2.2.2 h
        have h1 := hrec.1
        rw [if_neg (by omega)]
        by_cases he : (trainLoop S A T R γ τ precision pt maxItr vinit
            (getNextValues S A T R γ τ pt V)
            (getNextValues S A T R γ τ pt V) (itr + 1)).2 = itr + 1
        · rw [if_pos he] at hs
          rw [hrec.2.1 he]
          exact hs
        · rw [if_neg he] at hs
          exact hs
    · have heq : trainLoop S A T R γ τ precision pt maxItr vinit
          nextv V itr = (V, itr) := by
        rw [trainLoop]
        exact dif_neg hc
      rw [heq]
      refine ⟨le_refl _, fun _ => rfl, fun h => h, fun h => ?_⟩
      rw [if_pos rfl]
      rcases not_and_or.mp hc with h1 | h2
      · exact not_not.mp h1
      · exact absurd h h2

/-- C9: the `while` body of `train` runs only while `_stop_condition` is
false AND the counter is below `max_itr` (each execution performs exactly
one `value_fun.update` and one `itr += 1`, so the returned counter counts
the updates); hence the counter never exceeds `max_itr` — at most
`max_itr` value-container updates — and the recursion terminates (it is a
total function of `max_itr - itr`).  After loop exit, by convergence
(witnessed by `stopCondition` holding at the exit state whenever the
budget was not exhausted, including when the body never ran and `next_v`
is still the initial broadcast `1e6` array) or by budget exhaustion, the
policy is recomputed once from the final values and applied. -/
theorem train_bounded_updates_final_policy (S A : ℕ)
    (T R : ℕ → ℕ → ℕ → ℝ) (γ τ precision : ℝ) (pt : String)
    (maxItr : ℕ) (V0 : ℕ → ℝ) :
    (train S A T R γ τ precision pt maxItr V0).2.1 ≤ maxItr ∧
    (train S A T R γ τ precision pt maxItr V0).2.2 =
      getNextPolicy S A T R γ τ pt
        (train S A T R γ τ precision pt maxItr V0).1 ∧
    ((train S A T R γ τ precision pt maxItr V0).2.1 < maxItr →
      stopCondition S A R γ precision
        (train S A T R γ τ precision pt maxItr V0).2.1
        (if (train S A T R γ τ precision pt maxItr V0).2.1 = 0
         then (fun _ => 1000000)
         else (train S A T R γ τ precision pt maxItr V0).1) V0) := by
  have h := trainLoop_spec S A T R γ τ precision pt maxItr V0 maxItr 0
    (fun _ => 1000000) V0 (by omega)
  have htr : train S A T R γ τ precision pt maxItr V0 =
      ((trainLoop S A T R γ τ precision pt maxItr V0
          (fun _ => 1000000) V0 0).1,
       (trainLoop S A T R γ τ precision pt maxItr V0
          (fun _ => 1000000) V0 0).2,
       getNextPolicy S A T R γ τ pt
         (trainLoop S A T R γ τ precision pt maxItr V0
            (fun _ => 1000000) V0 0).1) := rfl
  rw [htr]
  exact ⟨h.2.2.1 (by omega), rfl, h.2.2.2⟩

theorem train_bounded_updates_final_policy_witness :
    (train 1 1 cT cR 0 1 1 "deterministic" 0 cV).2.1 ≤ 0 ∧
    (train 1 1 cT cR 0 1 1 "deterministic" 0 cV).2.2 =
      getNextPolicy 1 1 cT cR 0 1 "deterministic"
        (train 1 1 cT cR 0 1 1 "deterministic" 0 cV).1 ∧
    ((train 1 1 cT cR 0 1 1 "deterministic" 0 cV).2.1 < 0 →
      stopCondition 1 1 cR 0 1
        (train 1 1 cT cR 0 1 1 "deterministic" 0 cV).2.1
        (if (train 1 1 cT cR 0 1 1 "deterministic" 0 cV).2.1 = 0
         then (fun _ => 1000000)
         else (train 1 1 cT cR 0 1 1 "deterministic" 0 cV).1) cV) :=
  train_bounded_updates_final_policy 1 1 cT cR 0 1 1 "deterministic" 0 cV
